import Mathlib

/-!
Shallow embedding of the chess engine in `src/engine/random_play.py`
(class `ChessBoard`) and of the move-request handler in
`src/server/mock_ai_server.py` (`ai_move`), together with proofs of the
behavioural properties stated in the specification.

The Python board is a list of 8 lists of 8 one-character strings; we model it
as a function `Fin 8 → Fin 8 → Char`.  Squares appearing in move generation
are `Int × Int` pairs (row, column), exactly as in the source, where bounds
are checked with `is_valid_position` before any board access.  Pieces are the
characters used by the source: uppercase for white, lowercase for black,
`'.'` for an empty square.
-/

set_option maxRecDepth 100000

namespace RandomPlay

/-- The board: a mapping from (row, column) to the character stored there. -/
abbrev Board : Type := Fin 8 → Fin 8 → Char

/-- A move as produced by `get_all_legal_moves`: ((from_row, from_col), (to_row, to_col)). -/
abbrev Move : Type := (Int × Int) × (Int × Int)

/-- One `move_history` record: (from_pos, to_pos, piece, captured). -/
abbrev HistEntry : Type := (Int × Int) × (Int × Int) × Char × Char

/-- `ChessBoard.is_valid_position`: `0 <= row < BOARD_SIZE and 0 <= col < BOARD_SIZE`. -/
def is_valid_position (row col : Int) : Bool :=
  decide (0 ≤ row) && decide (row < 8) && decide (0 ≤ col) && decide (col < 8)

/-- Read `self.board[row][col]`.  In the source every read is guarded by
`is_valid_position`; out-of-range reads return `'.'` here. -/
def boardGet (b : Board) (row col : Int) : Char :=
  if h : 0 ≤ row ∧ row < 8 ∧ 0 ≤ col ∧ col < 8 then
    b ⟨row.toNat, by omega⟩ ⟨col.toNat, by omega⟩
  else '.'

/-- Write `self.board[row][col] = v` (a no-op off the board, which the source
never does). -/
def boardSet (b : Board) (row col : Int) (v : Char) : Board :=
  fun i j => if (i : Int) = row ∧ (j : Int) = col then v else b i j

/-- Equality of boards is decided square by square, so that concrete
positions can be compared by evaluation. -/
instance : DecidableEq Board := fun f g =>
  decidable_of_iff
    ((List.finRange 8).map (fun i => (List.finRange 8).map fun j => f i j) =
      (List.finRange 8).map fun i => (List.finRange 8).map fun j => g i j)
    (by
      rw [List.map_eq_map_iff]
      constructor
      · intro h
        funext i j
        have hi := h i (List.mem_finRange i)
        rw [List.map_eq_map_iff] at hi
        exact hi j (List.mem_finRange j)
      · intro h i _
        rw [h])

/-- The starting position written out in `ChessBoard.__init__`. -/
def initial_rows : List (List Char) :=
  [ ['r', 'n', 'b', 'q', 'k', 'b', 'n', 'r'],
    ['p', 'p', 'p', 'p', 'p', 'p', 'p', 'p'],
    ['.', '.', '.', '.', '.', '.', '.', '.'],
    ['.', '.', '.', '.', '.', '.', '.', '.'],
    ['.', '.', '.', '.', '.', '.', '.', '.'],
    ['.', '.', '.', '.', '.', '.', '.', '.'],
    ['P', 'P', 'P', 'P', 'P', 'P', 'P', 'P'],
    ['R', 'N', 'B', 'Q', 'K', 'B', 'N', 'R'] ]

def initial_board : Board :=
  fun i j => ((initial_rows.getD i.val []).getD j.val '.')

/-- The mutable fields of `ChessBoard` that take part in game play
(the pygame-only fields `selected_square` and `animation_pieces` are
presentation state and are not modelled). -/
structure GameState where
  board : Board
  current_player : String
  last_move : Option ((Int × Int) × (Int × Int))
  move_history : List HistEntry
  captured_white : List Char
  captured_black : List Char

/-- Equality of game states is decided field by field. -/
instance : DecidableEq GameState := fun s t =>
  decidable_of_iff
    (s.board = t.board ∧ s.current_player = t.current_player ∧
      s.last_move = t.last_move ∧ s.move_history = t.move_history ∧
      s.captured_white = t.captured_white ∧ s.captured_black = t.captured_black)
    (by cases s; cases t; rw [GameState.mk.injEq])

/-- Equality of optional game states, again decided by evaluation (the
instance core derives for `Option` rewrites along the component equality,
which does not evaluate on states whose boards are equal only
extensionally). -/
instance : DecidableEq (Option GameState) := fun a b =>
  match a, b with
  | none, none => isTrue rfl
  | none, some _ => isFalse fun h => Option.noConfusion h
  | some _, none => isFalse fun h => Option.noConfusion h
  | some x, some y =>
    decidable_of_iff (x = y) ⟨fun h => by rw [h], fun h => Option.some.inj h⟩

/-- The state built by `ChessBoard.__init__`. -/
def initial_state : GameState :=
  { board := initial_board
    current_player := "white"
    last_move := none
    move_history := []
    captured_white := []
    captured_black := [] }

/-- `ChessBoard.get_all_pieces`: scan the 8×8 board in row-major order and
collect `(row, col, piece)` for every piece of the given color (`'white'` =
uppercase, `'black'` = lowercase). -/
def get_all_pieces (b : Board) (color : String) : List (Int × Int × Char) :=
  (List.range 8).flatMap fun (row : Nat) =>
    (List.range 8).filterMap fun (col : Nat) =>
      let piece := boardGet b (row : Int) (col : Int)
      if piece ≠ '.' ∧
          ((color = "white" ∧ piece.isUpper) ∨ (color = "black" ∧ piece.isLower)) then
        some ((row : Int), (col : Int), piece)
      else none

/-- One sliding-ray walk of `get_basic_moves`: `for i in range(1, 8)` stepping
`(row + dr*i, col + dc*i)`, stopping at the board edge or the first occupied
square, which is kept only when it holds a piece of the other case.
`up` is `piece.isupper()` for the sliding piece; `i` is the loop counter and
`fuel` the number of loop iterations left, so the walk starts at
`rayGo b up row col dr dc 7 1` for the seven iterations of `range(1, 8)`. -/
def rayGo (b : Board) (up : Bool) (row col dr dc : Int) :
    Nat → Nat → List (Int × Int)
  | 0, _ => []
  | fuel + 1, i =>
    let new_row := row + dr * (i : Int)
    let new_col := col + dc * (i : Int)
    if is_valid_position new_row new_col then
      let target := boardGet b new_row new_col
      if target = '.' then
        (new_row, new_col) :: rayGo b up row col dr dc fuel (i + 1)
      else if target.isUpper ≠ up then [(new_row, new_col)]
      else []
    else []

def rook_directions : List (Int × Int) := [(-1, 0), (1, 0), (0, -1), (0, 1)]

def knight_offsets : List (Int × Int) :=
  [(-2, -1), (-2, 1), (-1, -2), (-1, 2), (1, -2), (1, 2), (2, -1), (2, 1)]

def bishop_directions : List (Int × Int) := [(-1, -1), (-1, 1), (1, -1), (1, 1)]

def queen_directions : List (Int × Int) :=
  [(-1, -1), (-1, 0), (-1, 1), (0, -1), (0, 1), (1, -1), (1, 0), (1, 1)]

def king_offsets : List (Int × Int) :=
  [(-1, -1), (-1, 0), (-1, 1), (0, -1), (0, 1), (1, -1), (1, 0), (1, 1)]

/-- The pawn branch of `get_basic_moves`: single push (target empty), double
push from the starting rank (both squares empty), then the two diagonal
captures onto enemy-occupied squares. -/
def pawn_moves (b : Board) (row col : Int) (piece : Char) : List (Int × Int) :=
  let direction : Int := if piece.isUpper then -1 else 1
  let start_row : Int := if piece.isUpper then 6 else 1
  let forward :=
    let new_row := row + direction
    if is_valid_position new_row col ∧ boardGet b new_row col = '.' then
      (new_row, col) ::
        (if row = start_row then
          let new_row2 := row + 2 * direction
          if is_valid_position new_row2 col ∧ boardGet b new_row2 col = '.' then
            [(new_row2, col)]
          else []
        else [])
    else []
  let captures := ([-1, 1] : List Int).filterMap fun dc =>
    let new_row := row + direction
    let new_col := col + dc
    if is_valid_position new_row new_col then
      let target := boardGet b new_row new_col
      if target ≠ '.' ∧ target.isUpper ≠ piece.isUpper then some (new_row, new_col)
      else none
    else none
  forward ++ captures

/-- The step-piece pattern shared by the knight and king branches of
`get_basic_moves`: each offset is kept when it lands on the board on an empty
square or a piece of the other case. -/
def step_moves (b : Board) (row col : Int) (piece : Char)
    (offsets : List (Int × Int)) : List (Int × Int) :=
  offsets.filterMap fun d =>
    let new_row := row + d.1
    let new_col := col + d.2
    if is_valid_position new_row new_col then
      let target := boardGet b new_row new_col
      if target = '.' ∨ target.isUpper ≠ piece.isUpper then some (new_row, new_col)
      else none
    else none

/-- The sliding-piece pattern shared by the rook, bishop and queen branches of
`get_basic_moves`: one `rayGo` walk per direction, results concatenated in
direction order. -/
def slide_moves (b : Board) (row col : Int) (piece : Char)
    (directions : List (Int × Int)) : List (Int × Int) :=
  directions.flatMap fun d => rayGo b piece.isUpper row col d.1 d.2 7 1

/-- `ChessBoard.get_basic_moves`: dispatch on `piece.lower()`. -/
def get_basic_moves (b : Board) (row col : Int) (piece : Char) :
    List (Int × Int) :=
  let piece_type := piece.toLower
  if piece_type = 'p' then pawn_moves b row col piece
  else if piece_type = 'r' then slide_moves b row col piece rook_directions
  else if piece_type = 'n' then step_moves b row col piece knight_offsets
  else if piece_type = 'b' then slide_moves b row col piece bishop_directions
  else if piece_type = 'q' then slide_moves b row col piece queen_directions
  else if piece_type = 'k' then step_moves b row col piece king_offsets
  else []

/-- `ChessBoard.get_all_legal_moves` on a bare board: every basic move of
every piece of the color, tagged with its source square. -/
def all_legal_movesB (b : Board) (color : String) : List Move :=
  (get_all_pieces b color).flatMap fun p =>
    (get_basic_moves b p.1 p.2.1 p.2.2).map fun m => ((p.1, p.2.1), m)

/-- `ChessBoard.get_all_legal_moves` as the method on the game state: it reads
only `self.board`. -/
def GameState.get_all_legal_moves (s : GameState) (color : String) : List Move :=
  all_legal_movesB s.board color

/-- `'black' if self.current_player == 'white' else 'white'`. -/
def flip_player (p : String) : String := if p = "white" then "black" else "white"

/-- `ChessBoard.make_move` (the `animate` branch only builds a pygame
`AnimatedPiece` and is presentation-only): record the capture, move the piece,
set `last_move`, append to `move_history`, switch players. -/
def make_move (s : GameState) (from_pos to_pos : Int × Int) : GameState :=
  let piece := boardGet s.board from_pos.1 from_pos.2
  let captured := boardGet s.board to_pos.1 to_pos.2
  { board := boardSet (boardSet s.board from_pos.1 from_pos.2 '.')
      to_pos.1 to_pos.2 piece
    current_player := flip_player s.current_player
    last_move := some (from_pos, to_pos)
    move_history := s.move_history ++ [(from_pos, to_pos, piece, captured)]
    captured_white :=
      if captured ≠ '.' ∧ captured.isUpper then s.captured_white ++ [captured]
      else s.captured_white
    captured_black :=
      if captured ≠ '.' ∧ ¬captured.isUpper then s.captured_black ++ [captured]
      else s.captured_black }

/-- `ChessBoard.make_random_move`, with `random.choice` modelled by an index
`k` reduced modulo the length of the non-empty legal-move list: returns the
chosen move and the new state, or `none` with the state untouched when the
legal-move list is empty. -/
def make_random_move (s : GameState) (k : Nat) : Option Move × GameState :=
  let legal_moves := s.get_all_legal_moves s.current_player
  match legal_moves with
  | [] => (none, s)
  | m :: rest =>
    let move := (m :: rest).get ⟨k % (m :: rest).length, Nat.mod_lt _ (Nat.succ_pos _)⟩
    (some move, make_move s move.1 move.2)

/-- Modelled from the spec: the repository implements no undo operation; §4.3
of the spec requires `undo` to fail with `NoHistory` when the history stack is
empty and otherwise to pop the top entry and invert every field mutated by
apply.  The fields `make_move` mutates are the two board squares, the side to
move, `last_move`, `move_history` and the capture list of the captured
piece's color; each is inverted here from the popped history record. -/
def undo (s : GameState) : Option GameState :=
  match s.move_history.getLast? with
  | none => none
  | some entry =>
    let from_pos := entry.1
    let to_pos := entry.2.1
    let piece := entry.2.2.1
    let captured := entry.2.2.2
    let hist := s.move_history.dropLast
    some
      { board := boardSet (boardSet s.board to_pos.1 to_pos.2 captured)
          from_pos.1 from_pos.2 piece
        current_player := flip_player s.current_player
        last_move := hist.getLast?.map fun r => (r.1, r.2.1)
        move_history := hist
        captured_white :=
          if captured ≠ '.' ∧ captured.isUpper then s.captured_white.dropLast
          else s.captured_white
        captured_black :=
          if captured ≠ '.' ∧ ¬captured.isUpper then s.captured_black.dropLast
          else s.captured_black }

/-- The mover's king (uppercase `'K'` for white, lowercase `'k'` for black) is
attacked on board `b` exactly when the opposite color has a generated move
whose destination holds that king; with the source's move geometry this is
the standard attack relation, since only capture moves target occupied
squares. -/
def king_attacked (b : Board) (color : String) : Bool :=
  let opponent := if color = "white" then "black" else "white"
  let king := if color = "white" then 'K' else 'k'
  (all_legal_movesB b opponent).any fun mv => boardGet b mv.2.1 mv.2.2 = king

/-- Number of squares of `b` holding the character `p`. -/
def count_piece (b : Board) (p : Char) : Nat :=
  ((List.range 8).flatMap fun (r : Nat) => (List.range 8).filter fun (c : Nat) =>
    boardGet b (r : Int) (c : Int) = p).length

/-! The `ai_move` handler of `src/server/mock_ai_server.py`.  The legal moves
of the reconstructed position are computed by the external `python-chess`
library, so the handler is modelled as a function of that list; `random.choice`
is again an index, and `board.san` an abstract rendering function. -/

/-- The JSON bodies `ai_move` can return on a well-formed payload. -/
structure AiResponse where
  success : Bool
  move : Option String
  error : Option String
deriving DecidableEq

/-- The final branch of `ai_move`: report `no_legal_moves` on an empty list,
otherwise answer with the SAN rendering of the chosen move. -/
def ai_move {α : Type} (legal_moves : List α) (k : Nat) (san : α → String) :
    AiResponse :=
  match legal_moves with
  | [] => { success := false, move := none, error := some "no_legal_moves" }
  | m :: rest =>
    let move := (m :: rest).get ⟨k % (m :: rest).length, Nat.mod_lt _ (Nat.succ_pos _)⟩
    { success := true, move := some (san move), error := none }

/-! The specification's description of a sliding ray, used to check the
rook/bishop/queen branches of `get_basic_moves` against §4.1/§4.2 of the
spec: every empty square in step order until the board edge or the first
occupied square, that square included exactly when it holds an enemy piece. -/

/-- Written from the spec's words (§4.1): walk a list of candidate squares in
order, keep the longest prefix of on-board empty squares, then look at the
next square and keep it exactly when it is on the board and holds a piece of
the opposite case; nothing beyond that square is kept. -/
def walkSpec (b : Board) (up : Bool) (squares : List (Int × Int)) :
    List (Int × Int) :=
  let emptyPrefix := squares.takeWhile fun q =>
    is_valid_position q.1 q.2 && (boardGet b q.1 q.2 == '.')
  emptyPrefix ++
    match squares.drop emptyPrefix.length with
    | [] => []
    | q :: _ =>
      if is_valid_position q.1 q.2 ∧ boardGet b q.1 q.2 ≠ '.' ∧
          (boardGet b q.1 q.2).isUpper ≠ up then [q]
      else []

/-- The spec's sliding ray: the squares at steps 1..7 along the direction,
walked as `walkSpec` describes. -/
def raySpec (b : Board) (up : Bool) (row col dr dc : Int) : List (Int × Int) :=
  walkSpec b up
    ((List.range' 1 7).map fun (i : Nat) => (row + dr * (i : Int), col + dc * (i : Int)))

/-! Concrete positions and play sequences used as counterexamples and
witnesses below. -/

/-- A pin position: white king e1 = (7,4), white queen e2 = (6,4), black rook
e8 = (0,4).  The queen is pinned to the king. -/
def pinned_board : Board := fun i j =>
  if i.val = 7 ∧ j.val = 4 then 'K'
  else if i.val = 6 ∧ j.val = 4 then 'Q'
  else if i.val = 0 ∧ j.val = 4 then 'r'
  else '.'

def pinned_state : GameState :=
  { board := pinned_board
    current_player := "white"
    last_move := none
    move_history := []
    captured_white := []
    captured_black := [] }

/-- Play from the start that ends with the white queen capturing the black
king: e2e4, f7f6, d1h5, a7a6, h5xe8. -/
def hunt1 : GameState := make_move initial_state (6, 4) (4, 4)
def hunt2 : GameState := make_move hunt1 (1, 5) (2, 5)
def hunt3 : GameState := make_move hunt2 (7, 3) (3, 7)
def hunt4 : GameState := make_move hunt3 (1, 0) (2, 0)
def hunt5 : GameState := make_move hunt4 (3, 7) (0, 4)

/-- A board on which white has no pieces at all, hence no generated moves. -/
def lone_black_king_board : Board := fun i j =>
  if i.val = 0 ∧ j.val = 4 then 'k' else '.'

def no_moves_state : GameState :=
  { board := lone_black_king_board
    current_player := "white"
    last_move := none
    move_history := []
    captured_white := []
    captured_black := [] }

/-- The initial board paired with a fictitious history: same board as
`initial_state` but different bookkeeping fields. -/
def ghost_history_state : GameState :=
  { board := initial_board
    current_player := "black"
    last_move := some ((4, 4), (3, 3))
    move_history := [((4, 4), (3, 3), 'P', 'p'), ((0, 0), (1, 1), 'r', '.')]
    captured_white := ['N']
    captured_black := ['p'] }

/-! Basic lemmas about the board representation. -/

theorem is_valid_position_iff {row col : Int} :
    is_valid_position row col = true ↔ 0 ≤ row ∧ row < 8 ∧ 0 ≤ col ∧ col < 8 := by
  simp [is_valid_position, and_assoc]

theorem boardSet_apply (b : Board) (row col : Int) (v : Char) (i j : Fin 8) :
    boardSet b row col v i j = if (i : Int) = row ∧ (j : Int) = col then v else b i j := rfl

theorem boardGet_fin (b : Board) (i j : Fin 8) :
    boardGet b (i : Int) (j : Int) = b i j := by
  have hi : (0 : Int) ≤ (i : Int) ∧ (i : Int) < 8 := by
    constructor
    · exact Int.natCast_nonneg _
    · exact_mod_cast i.isLt
  have hj : (0 : Int) ≤ (j : Int) ∧ (j : Int) < 8 := by
    constructor
    · exact Int.natCast_nonneg _
    · exact_mod_cast j.isLt
  rw [boardGet, dif_pos ⟨hi.1, hi.2, hj.1, hj.2⟩]
  have h1 : (⟨((i : Int)).toNat, by omega⟩ : Fin 8) = i := by apply Fin.ext; simp
  have h2 : (⟨((j : Int)).toNat, by omega⟩ : Fin 8) = j := by apply Fin.ext; simp
  rw [h1, h2]

theorem boardGet_eq_of_coe (b : Board) (i j : Fin 8) (r c : Int)
    (hr : (i : Int) = r) (hc : (j : Int) = c) : boardGet b r c = b i j := by
  subst hr; subst hc; exact boardGet_fin b i j

theorem boardGet_set_self (b : Board) (row col : Int) (v : Char)
    (h : 0 ≤ row ∧ row < 8 ∧ 0 ≤ col ∧ col < 8) :
    boardGet (boardSet b row col v) row col = v := by
  obtain ⟨h1, h2, h3, h4⟩ := h
  rw [boardGet, dif_pos ⟨h1, h2, h3, h4⟩, boardSet_apply, if_pos]
  constructor <;> simp <;> omega

theorem boardGet_set_ne (b : Board) (row col : Int) (v : Char) (r c : Int)
    (h : ¬(r = row ∧ c = col)) :
    boardGet (boardSet b row col v) r c = boardGet b r c := by
  by_cases hv : 0 ≤ r ∧ r < 8 ∧ 0 ≤ c ∧ c < 8
  · rw [boardGet, dif_pos hv, boardGet, dif_pos hv, boardSet_apply, if_neg]
    intro ⟨ha, hb⟩
    apply h
    constructor <;> [rw [← ha]; rw [← hb]] <;> simp <;> omega
  · rw [boardGet, dif_neg hv, boardGet, dif_neg hv]

/-! The sliding-ray walk of the source agrees with the spec's description. -/

theorem walkSpec_cons (b : Board) (up : Bool) (q : Int × Int)
    (qs : List (Int × Int)) :
    walkSpec b up (q :: qs) =
      if is_valid_position q.1 q.2 && (boardGet b q.1 q.2 == '.') then
        q :: walkSpec b up qs
      else if is_valid_position q.1 q.2 ∧ boardGet b q.1 q.2 ≠ '.' ∧
          (boardGet b q.1 q.2).isUpper ≠ up then [q]
      else [] := by
  unfold walkSpec
  rw [List.takeWhile_cons]
  by_cases h : (is_valid_position q.1 q.2 && (boardGet b q.1 q.2 == '.')) = true
  · rw [if_pos h, if_pos h]
    simp [List.drop_succ_cons]
  · rw [if_neg h, if_neg h]
    simp

theorem rayGo_eq_walkSpec (b : Board) (up : Bool) (row col dr dc : Int)
    (fuel : Nat) : ∀ i : Nat,
    rayGo b up row col dr dc fuel i =
      walkSpec b up ((List.range' i fuel).map fun (n : Nat) =>
        (row + dr * (n : Int), col + dc * (n : Int))) := by
  induction fuel with
  | zero => intro i; rfl
  | succ fuel ih =>
    intro i
    rw [List.range'_succ, List.map_cons, walkSpec_cons]
    rw [rayGo]
    by_cases hv : is_valid_position (row + dr * (i : Int)) (col + dc * (i : Int)) = true
    · by_cases he : boardGet b (row + dr * (i : Int)) (col + dc * (i : Int)) = '.'
      · rw [ih (i + 1)]
        simp [hv, he]
      · simp [hv, he]
    · simp [hv]

/-! Every move produced by `get_basic_moves` targets an on-board square. -/

theorem mem_rayGo_valid (b : Board) (up : Bool) (row col dr dc : Int)
    (fuel : Nat) : ∀ (i : Nat) (q : Int × Int),
    q ∈ rayGo b up row col dr dc fuel i → is_valid_position q.1 q.2 = true := by
  induction fuel with
  | zero => intro i q h; simp [rayGo] at h
  | succ fuel ih =>
    intro i q h
    simp only [rayGo] at h
    split_ifs at h with h1 h2 h3
    · rcases List.mem_cons.mp h with rfl | htail
      · exact h1
      · exact ih (i + 1) q htail
    · rcases List.mem_singleton.mp h with rfl
      exact h1
    · exact absurd h (List.not_mem_nil q)
    · exact absurd h (List.not_mem_nil q)

theorem mem_pawn_moves_valid (b : Board) (row col : Int) (piece : Char)
    (q : Int × Int) (h : q ∈ pawn_moves b row col piece) :
    is_valid_position q.1 q.2 = true := by
  have fwd : ∀ d sr : Int,
      q ∈ (if is_valid_position (row + d) col = true ∧ boardGet b (row + d) col = '.' then
          (row + d, col) ::
            (if row = sr then
              (if is_valid_position (row + 2 * d) col = true ∧
                  boardGet b (row + 2 * d) col = '.' then [(row + 2 * d, col)] else [])
            else [])
        else []) → is_valid_position q.1 q.2 = true := by
    intro d sr h
    split_ifs at h with h1 h2 h3
    · rcases List.mem_cons.mp h with rfl | htail
      · exact h1.1
      · rcases List.mem_singleton.mp htail with rfl
        exact h3.1
    · rcases List.mem_cons.mp h with rfl | htail
      · exact h1.1
      · exact absurd htail (List.not_mem_nil q)
    · rcases List.mem_cons.mp h with rfl | htail
      · exact h1.1
      · exact absurd htail (List.not_mem_nil q)
    · exact absurd h (List.not_mem_nil q)
  have cap : ∀ d dc : Int,
      ((if is_valid_position (row + d) (col + dc) = true then
          (if boardGet b (row + d) (col + dc) ≠ '.' ∧
              (boardGet b (row + d) (col + dc)).isUpper ≠ piece.isUpper then
            some (row + d, col + dc)
          else none)
        else none) = some q) → is_valid_position q.1 q.2 = true := by
    intro d dc hq
    split_ifs at hq with h1 h2
    rcases Option.some.inj hq with rfl
    exact h1
  simp only [pawn_moves, List.mem_append, List.mem_filterMap] at h
  rcases h with h | ⟨dc, _, hq⟩
  · exact fwd _ _ h
  · exact cap _ dc hq

theorem mem_step_moves_valid (b : Board) (row col : Int) (piece : Char)
    (offsets : List (Int × Int)) (q : Int × Int)
    (h : q ∈ step_moves b row col piece offsets) :
    is_valid_position q.1 q.2 = true := by
  simp only [step_moves, List.mem_filterMap] at h
  obtain ⟨d, _, hq⟩ := h
  split_ifs at hq with h1 h2
  rcases Option.some.inj hq with rfl
  exact h1

theorem mem_slide_moves_valid (b : Board) (row col : Int) (piece : Char)
    (directions : List (Int × Int)) (q : Int × Int)
    (h : q ∈ slide_moves b row col piece directions) :
    is_valid_position q.1 q.2 = true := by
  simp only [slide_moves, List.mem_flatMap] at h
  obtain ⟨d, _, hq⟩ := h
  exact mem_rayGo_valid b piece.isUpper row col d.1 d.2 7 1 q hq

theorem mem_get_basic_moves_valid (b : Board) (row col : Int) (piece : Char)
    (q : Int × Int) (h : q ∈ get_basic_moves b row col piece) :
    is_valid_position q.1 q.2 = true := by
  simp only [get_basic_moves] at h
  split_ifs at h
  · exact mem_pawn_moves_valid b row col piece q h
  · exact mem_slide_moves_valid b row col piece rook_directions q h
  · exact mem_step_moves_valid b row col piece knight_offsets q h
  · exact mem_slide_moves_valid b row col piece bishop_directions q h
  · exact mem_slide_moves_valid b row col piece queen_directions q h
  · exact mem_step_moves_valid b row col piece king_offsets q h
  · exact absurd h (List.not_mem_nil q)

theorem mem_get_all_pieces_valid (b : Board) (color : String)
    (p : Int × Int × Char) (h : p ∈ get_all_pieces b color) :
    is_valid_position p.1 p.2.1 = true := by
  simp only [get_all_pieces, List.mem_flatMap, List.mem_filterMap,
    List.mem_range] at h
  obtain ⟨r, hr, c, hc, hp⟩ := h
  split_ifs at hp
  rcases Option.some.inj hp with rfl
  rw [is_valid_position_iff]
  refine ⟨Int.natCast_nonneg _, ?_, Int.natCast_nonneg _, ?_⟩
  · show (r : Int) < 8
    exact_mod_cast hr
  · show (c : Int) < 8
    exact_mod_cast hc

theorem mem_all_legal_movesB_valid (b : Board) (color : String) (mv : Move)
    (h : mv ∈ all_legal_movesB b color) :
    is_valid_position mv.1.1 mv.1.2 = true ∧
      is_valid_position mv.2.1 mv.2.2 = true := by
  simp only [all_legal_movesB, List.mem_flatMap, List.mem_map] at h
  obtain ⟨p, hp, m, hm, rfl⟩ := h
  exact ⟨mem_get_all_pieces_valid b color p hp,
    mem_get_basic_moves_valid b p.1 p.2.1 p.2.2 m hm⟩

/-! The claims. -/

/-- C1: the spec claims every move returned by `get_all_legal_moves` leaves
the mover's own king unattacked.  The code has no legality filter: in
`pinned_state` (white king e1, white queen e2 pinned by the black rook e8)
the white king is not attacked, yet the queen move (6,4)→(5,3) is returned,
and after `make_move` applies it the white king is attacked. -/
theorem c1_legal_moves_can_leave_king_attacked :
    (((6 : Int), (4 : Int)), ((5 : Int), (3 : Int))) ∈
        pinned_state.get_all_legal_moves pinned_state.current_player ∧
    king_attacked pinned_state.board "white" = false ∧
    king_attacked (make_move pinned_state (6, 4) (5, 3)).board "white" = true := by
  decide

/-- C2: the spec claims applying a move outside the current legal set fails
with `IllegalMove` and leaves the state unchanged.  `make_move` performs no
legality check and raises nothing: the move (0,0)→(7,7) is not in white's
legal set at the start, yet applying it moves black's rook onto h1, mutates
board and history, and flips the side to move. -/
theorem c2_make_move_applies_illegal_moves :
    (((0 : Int), (0 : Int)), ((7 : Int), (7 : Int))) ∉
        initial_state.get_all_legal_moves initial_state.current_player ∧
    make_move initial_state (0, 0) (7, 7) ≠ initial_state ∧
    boardGet (make_move initial_state (0, 0) (7, 7)).board 7 7 = 'r' ∧
    (make_move initial_state (0, 0) (7, 7)).current_player = "black" ∧
    (make_move initial_state (0, 0) (7, 7)).move_history ≠
      initial_state.move_history := by
  decide

/-- C3: applying any generated move and then undoing it restores every
modelled field of the state (board, side to move, `last_move`, history,
capture lists).  `undo` is modelled from the spec, the repository having no
undo; the two extra hypotheses are invariants every state reachable from
`initial_state` through `make_move` satisfies: the side to move is
`"white"` or `"black"`, and `last_move` names the last history entry. -/
theorem c3_undo_after_make_move_roundtrip (s : GameState) (mv : Move)
    (hplayer : s.current_player = "white" ∨ s.current_player = "black")
    (hlast : s.last_move = s.move_history.getLast?.map fun r => (r.1, r.2.1))
    (hmv : mv ∈ s.get_all_legal_moves s.current_player) :
    undo (make_move s mv.1 mv.2) = some s := by
  clear hmv
  obtain ⟨fp, tp⟩ := mv
  obtain ⟨b, cp, lm, mh, cw, cb⟩ := s
  simp only [make_move, undo, List.getLast?_concat, List.dropLast_concat]
  rw [Option.some.injEq, GameState.mk.injEq]
  refine ⟨?_, ?_, ?_, rfl, ?_, ?_⟩
  · funext i j
    simp only [boardSet]
    split_ifs with h1 h2
    · exact boardGet_eq_of_coe b i j fp.1 fp.2 h1.1 h1.2
    · exact boardGet_eq_of_coe b i j tp.1 tp.2 h2.1 h2.2
    · rfl
  · rcases hplayer with h | h <;> simp only at h <;> subst h <;> rfl
  · simp only at hlast
    exact hlast.symm
  · by_cases hc : boardGet b tp.1 tp.2 ≠ '.' ∧ (boardGet b tp.1 tp.2).isUpper = true
    · simp [hc, List.dropLast_concat]
    · simp [hc]
  · by_cases hc : boardGet b tp.1 tp.2 ≠ '.' ∧ (boardGet b tp.1 tp.2).isUpper = false
    · simp [hc, List.dropLast_concat]
    · simp [hc]

/-- C3 witness: the round trip at the opening move e2e4 from the start. -/
theorem c3_witness :
    initial_state.current_player = "white" ∧
    initial_state.last_move =
      initial_state.move_history.getLast?.map (fun r => (r.1, r.2.1)) ∧
    (((6 : Int), (4 : Int)), ((4 : Int), (4 : Int))) ∈
      initial_state.get_all_legal_moves initial_state.current_player ∧
    undo (make_move initial_state (6, 4) (4, 4)) = some initial_state :=
  ⟨rfl, rfl, by decide,
    c3_undo_after_make_move_roundtrip initial_state ((6, 4), (4, 4))
      (Or.inl rfl) rfl (by decide)⟩

/-- C4: the generator applied to the standard initial position for the side
to move returns exactly 20 moves. -/
theorem c4_twenty_initial_moves :
    (initial_state.get_all_legal_moves initial_state.current_player).length
      = 20 := by
  decide

/-- C5: each sliding branch of `get_basic_moves` (rook, bishop and queen all
go through `slide_moves`) agrees, ray by ray, with the spec's description
`raySpec`: every on-board empty square in step order up to the board edge or
the first occupied square, that square kept exactly when it holds an
enemy piece, and nothing beyond it. -/
theorem c5_slide_moves_follow_spec_rays (b : Board) (row col : Int)
    (piece : Char) (directions : List (Int × Int)) :
    slide_moves b row col piece directions =
      directions.flatMap fun d => raySpec b piece.isUpper row col d.1 d.2 := by
  simp only [slide_moves, raySpec]
  congr 1
  funext d
  exact rayGo_eq_walkSpec b piece.isUpper row col d.1 d.2 7 1

/-- C6: the move generator is a function of the board and color alone — two
states with equal boards yield the same move list for any color, whatever
their histories, capture lists or bookkeeping fields. -/
theorem c6_moves_depend_only_on_board (s1 s2 : GameState) (color : String)
    (h : s1.board = s2.board) :
    s1.get_all_legal_moves color = s2.get_all_legal_moves color := by
  simp only [GameState.get_all_legal_moves, h]

/-- C6 witness: the initial board with a fictitious history generates the
same moves as the pristine initial state. -/
theorem c6_witness :
    ghost_history_state.board = initial_state.board ∧
    ghost_history_state.move_history ≠ initial_state.move_history ∧
    ghost_history_state.get_all_legal_moves "white" =
      initial_state.get_all_legal_moves "white" :=
  ⟨rfl, by decide,
    c6_moves_depend_only_on_board ghost_history_state initial_state "white" rfl⟩

/-- C7: a position with no generated moves is reported, not raised on:
`make_random_move` returns `none` and leaves the state untouched, and the
server handler `ai_move` answers `no_legal_moves` instead of choosing a
move. -/
theorem c7_empty_legal_moves_reported (s : GameState) (k : Nat) {α : Type}
    (legal_moves : List α) (san : α → String) (kk : Nat)
    (hs : s.get_all_legal_moves s.current_player = [])
    (hl : legal_moves = []) :
    make_random_move s k = (none, s) ∧
    ai_move legal_moves kk san =
      { success := false, move := none, error := some "no_legal_moves" } := by
  constructor
  · simp only [make_random_move, hs]
  · subst hl
    rfl

/-- C7 witness: a board where white has no pieces at all. -/
theorem c7_witness :
    no_moves_state.get_all_legal_moves no_moves_state.current_player = [] ∧
    make_random_move no_moves_state 3 = (none, no_moves_state) ∧
    ai_move ([] : List Nat) 5 (fun n : Nat => toString n) =
      { success := false, move := none, error := some "no_legal_moves" } :=
  ⟨by decide,
    (c7_empty_legal_moves_reported no_moves_state 3 ([] : List Nat)
      (fun n : Nat => toString n) 5 (by decide) rfl).1,
    (c7_empty_legal_moves_reported no_moves_state 3 ([] : List Nat)
      (fun n : Nat => toString n) 5 (by decide) rfl).2⟩

/-- C8: the spec claims play can never remove a king.  Because the generator
does not filter checks, the game e2e4, f7f6, d1h5, a7a6, h5xe8 — every move
of which is returned by `get_all_legal_moves` for the side to move — ends
with the white queen capturing the black king: the board afterwards holds no
`'k'` at all. -/
theorem c8_king_captured_by_generated_play :
    (((6 : Int), (4 : Int)), ((4 : Int), (4 : Int))) ∈
        initial_state.get_all_legal_moves initial_state.current_player ∧
    (((1 : Int), (5 : Int)), ((2 : Int), (5 : Int))) ∈
        hunt1.get_all_legal_moves hunt1.current_player ∧
    (((7 : Int), (3 : Int)), ((3 : Int), (7 : Int))) ∈
        hunt2.get_all_legal_moves hunt2.current_player ∧
    (((1 : Int), (0 : Int)), ((2 : Int), (0 : Int))) ∈
        hunt3.get_all_legal_moves hunt3.current_player ∧
    (((3 : Int), (7 : Int)), ((0 : Int), (4 : Int))) ∈
        hunt4.get_all_legal_moves hunt4.current_player ∧
    count_piece initial_state.board 'k' = 1 ∧
    count_piece hunt5.board 'k' = 0 := by
  decide

/-- C9: every move the generator returns stays on the board: both its source
and its destination satisfy the bounds check `is_valid_position`. -/
theorem c9_generated_moves_on_board (s : GameState) (color : String)
    (mv : Move) (h : mv ∈ s.get_all_legal_moves color) :
    is_valid_position mv.1.1 mv.1.2 = true ∧
      is_valid_position mv.2.1 mv.2.2 = true :=
  mem_all_legal_movesB_valid s.board color mv h

/-- C9 witness: the double pawn push e2e4 from the start is generated, and
both of its squares are on the board. -/
theorem c9_witness :
    (((6 : Int), (4 : Int)), ((4 : Int), (4 : Int))) ∈
      initial_state.get_all_legal_moves "white" ∧
    is_valid_position 6 4 = true ∧ is_valid_position 4 4 = true :=
  ⟨by decide,
    (c9_generated_moves_on_board initial_state "white" ((6, 4), (4, 4))
      (by decide)).1,
    (c9_generated_moves_on_board initial_state "white" ((6, 4), (4, 4))
      (by decide)).2⟩

/-- C10 counterexample: for the pair with `from = to = (0,0)` on the initial
board, the claim's "the from-square becomes empty" fails — the square keeps
its rook, because the source writes `'.'` to `from` and then writes the
piece back to the identical `to` square. -/
theorem c10_counterexample_from_equals_to :
    boardGet initial_state.board 0 0 = 'r' ∧
    boardGet (make_move initial_state (0, 0) (0, 0)).board 0 0 = 'r' ∧
    ¬boardGet (make_move initial_state (0, 0) (0, 0)).board 0 0 = '.' := by
  decide

/-- C10 (amended to distinct squares): for every state and every pair of
on-board squares with `from ≠ to`, `make_move` empties the from-square,
writes the moved piece to the to-square, leaves every other square
unchanged, appends exactly one history record, appends the captured piece
(when the to-square was occupied) to the capture list matching the captured
piece's case and leaves the other list unchanged, and flips the side to
move. -/
theorem c10_make_move_frame (s : GameState) (fp tp : Int × Int)
    (hf : is_valid_position fp.1 fp.2 = true)
    (ht : is_valid_position tp.1 tp.2 = true)
    (hne : fp ≠ tp) :
    boardGet (make_move s fp tp).board fp.1 fp.2 = '.' ∧
    boardGet (make_move s fp tp).board tp.1 tp.2 =
      boardGet s.board fp.1 fp.2 ∧
    (∀ r c : Int, ¬(r = fp.1 ∧ c = fp.2) → ¬(r = tp.1 ∧ c = tp.2) →
      boardGet (make_move s fp tp).board r c = boardGet s.board r c) ∧
    (make_move s fp tp).move_history = s.move_history ++
      [(fp, tp, boardGet s.board fp.1 fp.2, boardGet s.board tp.1 tp.2)] ∧
    (boardGet s.board tp.1 tp.2 = '.' →
      (make_move s fp tp).captured_white = s.captured_white ∧
      (make_move s fp tp).captured_black = s.captured_black) ∧
    (boardGet s.board tp.1 tp.2 ≠ '.' →
      (boardGet s.board tp.1 tp.2).isUpper = true →
      (make_move s fp tp).captured_white =
        s.captured_white ++ [boardGet s.board tp.1 tp.2] ∧
      (make_move s fp tp).captured_black = s.captured_black) ∧
    (boardGet s.board tp.1 tp.2 ≠ '.' →
      (boardGet s.board tp.1 tp.2).isUpper = false →
      (make_move s fp tp).captured_black =
        s.captured_black ++ [boardGet s.board tp.1 tp.2] ∧
      (make_move s fp tp).captured_white = s.captured_white) ∧
    (make_move s fp tp).current_player = flip_player s.current_player := by
  have hne' : ¬(fp.1 = tp.1 ∧ fp.2 = tp.2) := by
    intro hcomp
    exact hne (Prod.ext hcomp.1 hcomp.2)
  have hne'' : ¬(tp.1 = fp.1 ∧ tp.2 = fp.2) := by
    intro hcomp
    exact hne' ⟨hcomp.1.symm, hcomp.2.symm⟩
  refine ⟨?_, ?_, ?_, rfl, ?_, ?_, ?_, rfl⟩
  · show boardGet (boardSet (boardSet s.board fp.1 fp.2 '.') tp.1 tp.2
      (boardGet s.board fp.1 fp.2)) fp.1 fp.2 = '.'
    rw [boardGet_set_ne _ _ _ _ _ _ hne',
      boardGet_set_self _ _ _ _ (is_valid_position_iff.mp hf)]
  · show boardGet (boardSet (boardSet s.board fp.1 fp.2 '.') tp.1 tp.2
      (boardGet s.board fp.1 fp.2)) tp.1 tp.2 = _
    rw [boardGet_set_self _ _ _ _ (is_valid_position_iff.mp ht)]
  · intro r c h1 h2
    show boardGet (boardSet (boardSet s.board fp.1 fp.2 '.') tp.1 tp.2
      (boardGet s.board fp.1 fp.2)) r c = _
    rw [boardGet_set_ne _ _ _ _ _ _ h2, boardGet_set_ne _ _ _ _ _ _ h1]
  · intro h1
    constructor <;> simp [make_move, h1]
  · intro h1 h2
    constructor <;> simp [make_move, h1, h2]
  · intro h1 h2
    constructor <;> simp [make_move, h1, h2]

/-- C10 witness: the amended frame property at the opening move e2e4. -/
theorem c10_witness :
    is_valid_position 6 4 = true ∧ is_valid_position 4 4 = true ∧
    ((6 : Int), (4 : Int)) ≠ ((4 : Int), (4 : Int)) ∧
    boardGet (make_move initial_state (6, 4) (4, 4)).board 6 4 = '.' ∧
    boardGet (make_move initial_state (6, 4) (4, 4)).board 4 4 =
      boardGet initial_state.board 6 4 :=
  ⟨by decide, by decide, by decide,
    (c10_make_move_frame initial_state (6, 4) (4, 4) (by decide) (by decide)
      (by decide)).1,
    (c10_make_move_frame initial_state (6, 4) (4, 4) (by decide) (by decide)
      (by decide)).2.1⟩

end RandomPlay
